import Mathlib

/-!
Verification of the tag-association registry, persistent store, task tracker,
node-name handling and hierarchy tree model of `lean_digital_twin.py`.

Each definition is a shallow embedding of a function of the source file; the
source line numbers are given in the doc comments.
-/

namespace LDT

/-! ## JSON documents

Python's `json` module maps dicts/lists/strings to JSON documents.  We model
JSON documents as an inductive type; `safe_json_dump`/`safe_json_load`
(src lines 54-65) move such documents to and from disk. -/

/-- A JSON document, as produced by Python's `json` module. -/
inductive Json where
  | null : Json
  | bool (b : Bool) : Json
  | num (n : Int) : Json
  | str (s : String) : Json
  | arr (items : List Json) : Json
  | obj (members : List (String × Json)) : Json

/-! ## Tag association registry

`self.tag_associations` is a dict mapping a tag name to
`{'nodes': [...], 'datasheets': [...]}` (src line 1564).  Python dicts keep
insertion order and have unique keys; we model the registry as an association
list. -/

/-- The value stored for one tag: its node list and its datasheet list
(src line 1564: `{'nodes': [], 'datasheets': []}`). -/
structure TagEntry where
  nodes : List String
  datasheets : List String
deriving DecidableEq, Repr

/-- The registry `self.tag_associations`: tag name to entry, in insertion
order. -/
abbrev Registry := List (String × TagEntry)

/-- Encoding of a `TagEntry` as the JSON object Python's `json.dump` writes
for the dict `{'nodes': [...], 'datasheets': [...]}`. -/
def TagEntry.toJson (e : TagEntry) : Json :=
  .obj [("nodes", .arr (e.nodes.map .str)), ("datasheets", .arr (e.datasheets.map .str))]

/-- Encoding of the whole registry as the JSON object `json.dump` writes for
the dict `self.tag_associations` (called in `_persist_state` via
`safe_json_dump(self.tags_path, self.tag_associations)`). -/
def encodeRegistry (r : Registry) : Json :=
  .obj (r.map fun te => (te.1, TagEntry.toJson te.2))

/-- Reading the items of a JSON array of strings back. -/
def strListOf : List Json → Option (List String)
  | [] => some []
  | .str s :: rest => (strListOf rest).map (s :: ·)
  | _ => none

/-- Reading a JSON array of strings back, as `json.load` yields the list for
a `['a', 'b']` document. -/
def strListOfJson : Json → Option (List String)
  | .arr items => strListOf items
  | _ => none

/-- Reading a `TagEntry` back from its JSON object. -/
def TagEntry.ofJson : Json → Option TagEntry
  | .obj members => do
      let nodes ← strListOfJson ((members.lookup "nodes").getD .null)
      let datasheets ← strListOfJson ((members.lookup "datasheets").getD .null)
      pure ⟨nodes, datasheets⟩
  | _ => none

/-- Reading the member list of the registry document back, entry by
entry. -/
def decodeEntries : List (String × Json) → Option Registry
  | [] => some []
  | (t, j) :: rest => do
      let e ← TagEntry.ofJson j
      let r ← decodeEntries rest
      pure ((t, e) :: r)

/-- Reading the registry back from the JSON document `json.load` returns for
`tags.json`. -/
def decodeRegistry : Json → Option Registry
  | .obj members => decodeEntries members
  | _ => none

/-! ## Persistent store (src lines 54-65)

`safe_json_load(path, default)` is `try: return json.load(open(path))
except Exception: return default`.  The attempted open-and-parse is external
I/O; we model its outcome as an `Except` value and the function as the
`try`/`except` wrapper around it. -/

/-- The exceptions the `open`/`json.load` call in `safe_json_load` can raise. -/
inductive PyError where
  | fileNotFound : PyError
  | permissionDenied : PyError
  | jsonDecodeError (msg : String) : PyError
  | osError (msg : String) : PyError
deriving DecidableEq, Repr

/-- `safe_json_load` (src lines 54-59): returns the parsed document on
success and `default` on any exception.  The result is an `Except` so that
"the function itself raises" would be representable as `.error`; the
`try`/`except Exception` catches every `PyError`. -/
def safe_json_load (attempt : Except PyError Json) (default : Json) :
    Except PyError Json :=
  match attempt with
  | .ok doc => .ok doc
  | .error _ => .ok default

/-! ## Registry operations -/

/-- Python `list.remove(x)`: removes the first occurrence only
(src line 1488). -/
def pyRemove (x : String) : List String → List String
  | [] => []
  | y :: ys => if y = x then ys else y :: pyRemove x ys

/-- The registry part of `_remove_file` (src lines 1486-1488): for every
tag, if `file` is in its datasheet list, `remove` it. -/
def removeFileEverywhere (reg : Registry) (file : String) : Registry :=
  reg.map fun te =>
    if file ∈ te.2.datasheets then
      (te.1, { te.2 with datasheets := pyRemove file te.2.datasheets })
    else te

/-- In-place update of the entry of `tag` (Python dict item mutation; keys
are unique, so only the first match can exist). -/
def updateTag (tag : String) (f : TagEntry → TagEntry) : Registry → Registry
  | [] => []
  | (t, e) :: rest =>
      if t = tag then (t, f e) :: rest else (t, e) :: updateTag tag f rest

/-- `if tag not in self.tag_associations: self.tag_associations[tag] =
{'nodes': [], 'datasheets': []}` (src lines 1563-1564): dict insertion adds
the new key at the end. -/
def ensureEntry (tag : String) (reg : Registry) : Registry :=
  if (reg.lookup tag).isSome then reg else reg ++ [(tag, ⟨[], []⟩)]

/-- `if node and node not in ...['nodes']: ...append(node)`
(src lines 1566-1567). -/
def addNodeIfGiven (node tag : String) (reg : Registry) : Registry :=
  if node ≠ "" then
    updateTag tag
      (fun e => if node ∈ e.nodes then e else { e with nodes := e.nodes ++ [node] }) reg
  else reg

/-- `if datasheet_to_assign and ... not in ...['datasheets']: ...append(...)`
(src lines 1569-1570). -/
def addDatasheetIfGiven (ds tag : String) (reg : Registry) : Registry :=
  if ds ≠ "" then
    updateTag tag
      (fun e =>
        if ds ∈ e.datasheets then e
        else { e with datasheets := e.datasheets ++ [ds] }) reg
  else reg

/-- The registry part of `_add_tag` (src lines 1536-1538 and 1563-1570),
the spec's `create_or_update(tag, node, file)`: reject an empty tag name;
create the entry if absent; append `node` to the node list unless already
present; append `datasheet` to the datasheet list unless already present.
Empty strings play Python's falsy "not given" role.  `datasheet` is the
name of the copied datasheet (`datasheet_to_assign`); the file-copy dialog
flow that produces it is file-system territory outside the registry. -/
def create_or_update (reg : Registry) (tag node datasheet : String) : Registry :=
  if tag = "" then reg
  else addDatasheetIfGiven datasheet tag (addNodeIfGiven node tag (ensureEntry tag reg))

/-- `self.tag_associations.get(tag_name, {}).get('nodes', [])`
(src line 1593). -/
def tagNodes (reg : Registry) (tag : String) : List String :=
  match reg.lookup tag with
  | some e => e.nodes
  | none => []

/-- The active-node effect of `_on_tag_selected_in_editor_tab`
(src lines 1587-1597) together with `_set_active_node` (src 1705-1706):
an empty combobox value returns early; a tag with exactly one associated
node makes it the active node; anything else clears the active node. -/
def onTagSelectedActiveNode (reg : Registry) (tagName : String)
    (current : Option String) : Option String :=
  if tagName = "" then current
  else
    let nodes := tagNodes reg tagName
    if nodes.length = 1 then some (nodes.headD "") else none

/-! ## Local names of fetched node URIs (src lines 1168-1178) -/

/-- Python `s.split(sep)` for a one-character separator, on the character
list of `s`. -/
def pySplit (sep : Char) : List Char → List (List Char)
  | [] => [[]]
  | c :: cs =>
    let parts := pySplit sep cs
    if c = sep then [] :: parts
    else (c :: parts.headD []) :: parts.tail

/-- `uri.split('#')[-1].split('/')[-1]` (src line 1174). -/
def localName (s : String) : String :=
  ⟨(pySplit '/' ((pySplit '#' s.data).getLastD [])).getLastD []⟩

/-- Modelled from the spec's words, for comparison with `localName`: "the
substring after the last `#` or `/`" — the characters kept from the end of
the string while neither separator has been seen. -/
def specLocalName (s : String) : String :=
  ⟨(s.data.reverse.takeWhile fun c => c != '#' && c != '/').reverse⟩

/-- Proof-side characterisation: the suffix after the last occurrence of
`sep`. -/
def afterLast (sep : Char) : List Char → List Char
  | [] => []
  | c :: cs =>
    if sep ∈ cs then afterLast sep cs
    else if c = sep then cs
    else c :: cs

/-- Lexicographic code-point comparison of character lists: Python's `<=`
on strings, which `sorted` uses. -/
def listLe : List Char → List Char → Bool
  | [], _ => true
  | _ :: _, [] => false
  | a :: as, b :: bs =>
    if a.toNat < b.toNat then true
    else if b.toNat < a.toNat then false
    else listLe as bs

/-- Python's `<=` on strings. -/
def strLe (a b : String) : Bool := listLe a.data b.data

/-- Ascending sort on strings, by Python's string order. -/
def sortStrings (l : List String) : List String :=
  l.insertionSort (fun a b => strLe a b = true)

/-- Python `sorted(list(set(xs)))` (src line 1174): duplicates dropped,
then the unique ascending ordering.  On duplicate-free input every correct
sort returns the same list, so the set's iteration order is irrelevant. -/
def pySortedSet (l : List String) : List String := sortStrings l.dedup

/-- The node list built by the success path of `_after_fetch_nodes`
(src line 1174): the local names of the fetched URIs, deduplicated and
sorted ascending. -/
def afterFetchNodes (uris : List String) : List String :=
  pySortedSet (uris.map localName)

/-! ## Task tracker (src lines 1132-1143) -/

/-- Outcome of the tracked work: `future.result()` either returns the
work's value or re-raises the exception the work raised. -/
inductive FutureOutcome where
  | success (v : Json) : FutureOutcome
  | raised (e : PyError) : FutureOutcome

/-- The value handed to the tracked callback: a plain result, or the caught
exception as an ordinary value. -/
inductive CallbackArg where
  | value (v : Json) : CallbackArg
  | error (e : PyError) : CallbackArg

/-- `future.result()` as seen by `done` (src line 1137). -/
def futureResult (outcome : FutureOutcome) : Except PyError Json :=
  match outcome with
  | .success v => .ok v
  | .raised e => .error e

/-- The `res` local of `done` (src lines 1136-1141): the `try` assigns the
result; both `except` arms assign the caught exception object itself. -/
def trackRes (outcome : FutureOutcome) : CallbackArg :=
  match futureResult outcome with
  | .ok v => .value v
  | .error e => .error e

/-- `done` in `_track_future` (src lines 1134-1142), observed as the list
of callback invocations it schedules on the UI thread via
`master.after(0, lambda: callback(res))`, wrapped in `Except` so that an
exception escaping `done` itself would appear as `.error`. -/
def trackFutureDone (outcome : FutureOutcome) : Except PyError (List CallbackArg) :=
  .ok [trackRes outcome]

/-! ## Hierarchy tree model -/

/-- The data tkinter keeps per tree item: display text, tags tuple, open
flag.  (The `image` option duplicates the first tag for display and is not
modelled.) -/
structure Item where
  text : String
  tags : List String
  isOpen : Bool
deriving DecidableEq, Repr

/-- A `ttk.Treeview` item with its identity (`iid`) and its subtree,
children in display order. -/
inductive Tree where
  | node (iid : Nat) (item : Item) (children : List Tree) : Tree

def Tree.iid : Tree → Nat
  | .node i _ _ => i

def Tree.item : Tree → Item
  | .node _ it _ => it

def Tree.children : Tree → List Tree
  | .node _ _ cs => cs

/-- `_insert_bucket` (src lines 628-639), acting on the owner's child list:
return the first existing child carrying `tag`, else append a fresh bucket
node with tags `(tag, 'bucket_bold')`, open.  Result: the new child list,
the next fresh iid, and the iid of the returned bucket. -/
def insertBucket (children : List Tree) (label tag : String) (fresh : Nat) :
    List Tree × Nat × Nat :=
  match children.find? (fun c => c.item.tags.contains tag) with
  | some c => (children, fresh, c.iid)
  | none =>
      (children ++ [.node fresh ⟨label, [tag, "bucket_bold"], true⟩ []], fresh + 1, fresh)

/-- The buckets `_ensure_buckets` creates per owner type
(src lines 641-659), in creation order, as (label, tag) pairs. -/
def bucketsFor (ownerType : String) : List (String × String) :=
  if ownerType = "plant_node" then
    [("Units", "bucket_units"), ("Areas", "bucket_areas"),
     ("Equipment", "bucket_equipment"), ("Assets", "bucket_assets")]
  else if ownerType = "unit_node" then
    [("Areas", "bucket_areas"), ("Equipment", "bucket_equipment"),
     ("Assets", "bucket_assets")]
  else if ownerType = "area_node" then
    [("Equipment", "bucket_equipment"), ("Assets", "bucket_assets")]
  else if ownerType = "equipment_node" then
    [("Sub-Equipment", "bucket_sub_equipment"), ("Assets", "bucket_assets")]
  else if ownerType = "sub_equipment_node" then
    [("Assets", "bucket_assets")]
  else []

/-- `_ensure_buckets` (src lines 641-659) as an operation on the owner's
child list, threading the fresh-iid counter. -/
def ensureBucketsOp (ownerType : String) (cs : List Tree) (fresh : Nat) :
    List Tree × Nat :=
  (bucketsFor ownerType).foldl
    (fun acc lt =>
      let r := insertBucket acc.1 lt.1 lt.2 acc.2
      (r.1, r.2.1))
    (cs, fresh)

/-- The static type-adjacency table `self.allowed_children`
(src lines 896-917); `dict.get(t, [])` returns `[]` for unknown types. -/
def allowedChildren (t : String) : List String :=
  if t = "project_node" then ["bucket_plants"]
  else if t = "bucket_plants" then ["plant_node"]
  else if t = "plant_node" then ["bucket_units"]
  else if t = "bucket_units" then ["unit_node"]
  else if t = "unit_node" then ["bucket_areas", "bucket_equipment", "bucket_assets"]
  else if t = "bucket_areas" then ["area_node"]
  else if t = "bucket_equipment" then ["equipment_node"]
  else if t = "bucket_assets" then ["asset_node"]
  else if t = "area_node" then ["bucket_equipment", "bucket_assets"]
  else if t = "equipment_node" then ["bucket_sub_equipment", "bucket_assets"]
  else if t = "bucket_sub_equipment" then ["sub_equipment_node"]
  else if t = "sub_equipment_node" then ["bucket_assets"]
  else []

/-- `self.pretty_type.get(t, t)` (src lines 919-933). -/
def prettyType (t : String) : String :=
  if t = "project_node" then "Project"
  else if t = "plant_node" then "Plant"
  else if t = "unit_node" then "Unit"
  else if t = "area_node" then "Area"
  else if t = "equipment_node" then "Equipment"
  else if t = "sub_equipment_node" then "Sub-Equipment"
  else if t = "asset_node" then "Asset"
  else if t = "bucket_plants" then "Plants"
  else if t = "bucket_units" then "Units"
  else if t = "bucket_areas" then "Areas"
  else if t = "bucket_equipment" then "Equipment"
  else if t = "bucket_sub_equipment" then "Sub-Equipment"
  else if t = "bucket_assets" then "Assets"
  else t

/-- Python `s.startswith(p)`. -/
def isPre : List Char → List Char → Bool
  | [], _ => true
  | _ :: _, [] => false
  | p :: ps, c :: cs => p == c && isPre ps cs

/-- Python `s.startswith(p)` on strings. -/
def strStartsWith (s p : String) : Bool := isPre p.data s.data

/-- `bucket_for_child` in `_create_child` (src lines 697-705). -/
def bucketForChild (childTag : String) : Option String :=
  if childTag = "plant_node" then some "bucket_plants"
  else if childTag = "unit_node" then some "bucket_units"
  else if childTag = "area_node" then some "bucket_areas"
  else if childTag = "equipment_node" then some "bucket_equipment"
  else if childTag = "sub_equipment_node" then some "bucket_sub_equipment"
  else if childTag = "asset_node" then some "bucket_assets"
  else none

mutual
/-- Subtree lookup by iid, depth-first in display order. -/
def Tree.find (iid : Nat) : Tree → Option Tree
  | .node i it cs => if i = iid then some (.node i it cs) else Tree.findL iid cs

def Tree.findL (iid : Nat) : List Tree → Option Tree
  | [] => none
  | t :: ts =>
    match Tree.find iid t with
    | some r => some r
    | none => Tree.findL iid ts
end

/-- `_get_node_type` (src lines 661-663): the item's first tag, or
`project_node` when the item has no tags. -/
def typeAt (root : Tree) (iid : Nat) : String :=
  match Tree.find iid root with
  | some t => t.item.tags.headD "project_node"
  | none => "project_node"

mutual
/-- Apply a fresh-iid-threading operation to the child list of the node
with identity `iid`. -/
def Tree.updAt (iid : Nat) (f : List Tree → Nat → List Tree × Nat) (fresh : Nat) :
    Tree → Tree × Nat
  | .node i it cs =>
    if i = iid then
      let r := f cs fresh
      (.node i it r.1, r.2)
    else
      let r := Tree.updAtL iid f fresh cs
      (.node i it r.1, r.2)

def Tree.updAtL (iid : Nat) (f : List Tree → Nat → List Tree × Nat) (fresh : Nat) :
    List Tree → List Tree × Nat
  | [] => ([], fresh)
  | t :: ts =>
    let r1 := Tree.updAt iid f fresh t
    let r2 := Tree.updAtL iid f r1.2 ts
    (r1.1 :: r2.1, r2.2)
end

/-- A freshly inserted entity node: `self.tree.insert(bucket_iid, 'end',
text=name, open=True, tags=(child_tag,))` followed by
`self._ensure_buckets(new_iid, child_tag)` (src lines 729-731, 762-764). -/
def mkEntity (fresh : Nat) (childTag name : String) : Tree × Nat :=
  let r := ensureBucketsOp childTag [] (fresh + 1)
  (.node fresh ⟨name, [childTag], true⟩ r.1, r.2)

/-- Append a child to a node's child list (`tree.insert(iid, 'end', ...)`). -/
def addChildNode (c : Tree) (entity : Tree) : Tree :=
  match c with
  | .node i it cs => .node i it (cs ++ [entity])

/-- `_create_child` (src lines 682-765).  The entity name the dialogs would
collect is the `name` argument (one entity per call); the fetched-node and
dialog-cancellation guards, which return without touching the tree, are
outside the model. -/
def createChild (root : Tree) (fresh : Nat) (parentIid : Nat)
    (childTag name : String) : Tree × Nat :=
  if strStartsWith childTag "bucket_" then
    Tree.updAt parentIid
      (fun cs fr =>
        let r := insertBucket cs (prettyType childTag) childTag fr
        (r.1, r.2.1))
      fresh root
  else
    let parentType := typeAt root parentIid
    if strStartsWith parentType "bucket_" then
      Tree.updAt parentIid
        (fun cs fr =>
          let e := mkEntity fr childTag name
          (cs ++ [e.1], e.2))
        fresh root
    else
      match bucketForChild childTag with
      | none => (root, fresh)
      | some neededTag =>
        Tree.updAt parentIid
          (fun cs fr =>
            let s1 := if childTag = "plant_node" then (cs, fr)
                      else ensureBucketsOp parentType cs fr
            let s2 := insertBucket s1.1 (prettyType neededTag) neededTag s1.2
            let e := mkEntity s2.2.1 childTag name
            (s2.1.map fun c => if c.iid = s2.2.2 then addChildNode c e.1 else c, e.2))
          fresh root

/-- The insertion operation as the UI exposes it (`_add_child_clicked`,
src lines 669-680, and the context menu, src lines 875-883): the add menu
offers exactly `allowed_children[parent_type]`; picking an offered entry
runs `_create_child`, anything else is rejected.  The Boolean records
whether the insertion was accepted. -/
def insertChild (root : Tree) (fresh : Nat) (parentIid : Nat)
    (childTag name : String) : (Tree × Nat) × Bool :=
  if childTag ∈ allowedChildren (typeAt root parentIid) then
    (createChild root fresh parentIid childTag name, true)
  else
    ((root, fresh), false)

/-! ## Project serialization (src lines 1803-1849) -/

/-- A node of the serialized project document `{text, tags, open,
children}` (src lines 1811-1816). -/
inductive SNode where
  | mk (text : String) (tags : List String) (isOpen : Bool)
       (children : List SNode) : SNode

mutual
/-- `build` in `_serialize_tree` (src lines 1807-1821): `inline_info`
nodes are dropped; every other node records text, tags, open flag and its
serialized children in order. -/
def serializeTree : Tree → Option SNode
  | .node _ it cs =>
    if "inline_info" ∈ it.tags then none
    else some (.mk it.text it.tags it.isOpen (serializeForest cs))

def serializeForest : List Tree → List SNode
  | [] => []
  | t :: ts =>
    match serializeTree t with
    | some s => s :: serializeForest ts
    | none => serializeForest ts
end

mutual
/-- `insert` in `_rebuild_tree_from_serialized` (src lines 1836-1846):
each serialized node is re-inserted with a fresh iid; a node carrying any
`bucket_*` tag gets `bucket_bold` appended to its tag tuple. -/
def rebuildTree (s : SNode) (fresh : Nat) : Tree × Nat :=
  match s with
  | .mk text tags op children =>
    let tags2 := if tags.any (strStartsWith · "bucket_") then tags ++ ["bucket_bold"] else tags
    let r := rebuildForest children (fresh + 1)
    (.node fresh ⟨text, tags2, op⟩ r.1, r.2)

def rebuildForest : List SNode → Nat → List Tree × Nat
  | [], fresh => ([], fresh)
  | s :: ss, fresh =>
    let r1 := rebuildTree s fresh
    let r2 := rebuildForest ss r1.2
    (r1.1 :: r2.1, r2.2)
end

/-- The iid-independent view the round-trip preserves per node: display
text, primary (first) tag, open flag, and the same view of the
non-`inline_info` children in order. -/
inductive AbsNode where
  | mk (text : String) (primaryTag : Option String) (isOpen : Bool)
       (children : List AbsNode) : AbsNode

mutual
def absTree : Tree → Option AbsNode
  | .node _ it cs =>
    if "inline_info" ∈ it.tags then none
    else some (.mk it.text it.tags.head? it.isOpen (absForest cs))

def absForest : List Tree → List AbsNode
  | [] => []
  | t :: ts =>
    match absTree t with
    | some a => a :: absForest ts
    | none => absForest ts
end

mutual
/-- View of a serialized node. -/
def absS : SNode → AbsNode
  | .mk text tags op children => .mk text tags.head? op (absSL children)

def absSL : List SNode → List AbsNode
  | [] => []
  | s :: ss => absS s :: absSL ss
end

mutual
/-- No item of the tree carries the `inline_info` tag. -/
def noInlineT : Tree → Bool
  | .node _ it cs => if "inline_info" ∈ it.tags then false else noInlineL cs

def noInlineL : List Tree → Bool
  | [] => true
  | t :: ts => noInlineT t && noInlineL ts
end

mutual
/-- No node of the serialized document carries the `inline_info` tag. -/
def noInlineS : SNode → Bool
  | .mk _ tags _ children =>
    if "inline_info" ∈ tags then false else noInlineSL children

def noInlineSL : List SNode → Bool
  | [] => true
  | s :: ss => noInlineS s && noInlineSL ss
end

/-- A sample session tree: the project root, its plants bucket, one plant,
and a transient inline-info row under the plant. -/
def sampleTree : Tree :=
  .node 0 ⟨"Project", ["project_node"], true⟩
    [.node 1 ⟨"Plants", ["bucket_plants", "bucket_bold"], true⟩
      [.node 2 ⟨"P1", ["plant_node"], false⟩
        [.node 3 ⟨"(loading…)", ["inline_info"], true⟩ []]]]

/-- The serialized document of `sampleTree`: the inline-info row is gone. -/
def sampleDoc : SNode :=
  .mk "Project" ["project_node"] true
    [.mk "Plants" ["bucket_plants", "bucket_bold"] true
      [.mk "P1" ["plant_node"] false []]]

/-! # Theorems -/

theorem strListOf_roundtrip (xs : List String) :
    strListOf (xs.map .str) = some xs := by
  induction xs with
  | nil => rfl
  | cons x xs ih => simp [strListOf, ih]

theorem tagEntry_roundtrip (e : TagEntry) :
    TagEntry.ofJson (TagEntry.toJson e) = some e := by
  simp [TagEntry.toJson, TagEntry.ofJson, List.lookup, strListOfJson,
    strListOf_roundtrip]

/-- **C1**: dumping a tag registry with the persistent store and loading it
back reproduces an identical mapping: decoding the JSON document written
for `self.tag_associations` returns exactly the registry dumped, whatever
its tags, node lists and datasheet lists. -/
theorem registry_store_roundtrip (r : Registry) :
    decodeRegistry (encodeRegistry r) = some r := by
  induction r with
  | nil => rfl
  | cons p r ih =>
    simp only [encodeRegistry, decodeRegistry] at ih ⊢
    simp [decodeEntries, tagEntry_roundtrip, ih]

/-- **C8**: `safe_json_load(path, default)` never raises: it returns the
parsed JSON document when the open-and-parse succeeds, and returns
`default` on every failure (missing file, unreadable file, malformed
JSON — every `PyError`); for every attempt outcome the result is a plain
`.ok` value. -/
theorem safe_json_load_contract (d v : Json) (e : PyError)
    (a : Except PyError Json) :
    safe_json_load (.ok v) d = .ok v ∧
    safe_json_load (.error e) d = .ok d ∧
    ∃ result, safe_json_load a d = .ok result := by
  refine ⟨rfl, rfl, ?_⟩
  cases a with
  | ok v' => exact ⟨v', rfl⟩
  | error e' => exact ⟨d, rfl⟩

/-- **C7**: for every tracked work outcome, the tracker's `done` callback
catches a raised exception and schedules the user callback with the
exception as an ordinary value, schedules it with the result value on
success, schedules it exactly once either way, and never lets the work's
exception propagate (the result is always `.ok`). -/
theorem track_future_callback_contract (v : Json) (e : PyError)
    (o : FutureOutcome) :
    trackFutureDone (.success v) = .ok [.value v] ∧
    trackFutureDone (.raised e) = .ok [.error e] ∧
    ∃ args, trackFutureDone o = .ok args ∧ args.length = 1 :=
  ⟨rfl, rfl, ⟨[trackRes o], rfl, rfl⟩⟩

theorem pyRemove_not_mem (f : String) (l : List String) (h : l.count f ≤ 1) :
    f ∉ pyRemove f l := by
  induction l with
  | nil => simp [pyRemove]
  | cons y ys ih =>
    rw [List.count_cons] at h
    by_cases hy : y = f
    · subst hy
      rw [if_pos (by simp)] at h
      have h0 : ys.count y = 0 := by omega
      simpa [pyRemove] using List.count_eq_zero.mp h0
    · rw [if_neg (by simp [hy])] at h
      simp only [pyRemove, if_neg hy]
      intro hmem
      rcases List.mem_cons.mp hmem with h1 | h2
      · exact hy h1.symm
      · exact ih (by omega) h2

/-- **C4 counterexample**: the claim quantifies over every registry state,
but `list.remove` deletes only the first occurrence, so a registry whose
datasheet list holds the file twice (such states are reachable: `tags.json`
and imported project archives are read verbatim) still references the file
after removal. -/
theorem remove_file_counterexample :
    ¬ (∀ (reg : Registry) (f : String) (p : String × TagEntry),
        p ∈ removeFileEverywhere reg f → f ∉ p.2.datasheets) := fun h =>
  (h [("T", ⟨[], ["f", "f"]⟩)] "f" ("T", ⟨[], ["f"]⟩) (by decide)) (by decide)

/-- **C4 (amended)**: for every registry state in which each tag's
datasheet list contains `f` at most once — in particular every state
satisfying the registry's no-duplicates invariant — removing `f` scans all
tags and yields a registry in which no tag's datasheet list contains `f`;
positionally, tag names and node lists are always unchanged, and every tag
that did not reference `f` keeps its entry exactly. -/
theorem remove_file_everywhere_spec (reg : Registry) (f : String)
    (h : ∀ p ∈ reg, p.2.datasheets.count f ≤ 1) :
    (∀ p ∈ removeFileEverywhere reg f, f ∉ p.2.datasheets) ∧
    (removeFileEverywhere reg f).length = reg.length ∧
    (∀ i : Nat,
        (removeFileEverywhere reg f)[i]?.map Prod.fst = reg[i]?.map Prod.fst) ∧
    (∀ i : Nat, (removeFileEverywhere reg f)[i]?.map (fun p => p.2.nodes)
        = reg[i]?.map (fun p => p.2.nodes)) ∧
    (∀ i : Nat, ∀ p : String × TagEntry, reg[i]? = some p →
        f ∉ p.2.datasheets → (removeFileEverywhere reg f)[i]? = some p) := by
  refine ⟨?_, ?_, ?_, ?_, ?_⟩
  · intro p hp
    rcases List.mem_map.mp hp with ⟨q, hq, rfl⟩
    by_cases hf : f ∈ q.2.datasheets
    · simp only [if_pos hf]
      exact pyRemove_not_mem f q.2.datasheets (h q hq)
    · simp only [if_neg hf]
      exact hf
  · exact List.length_map _ _
  · intro i
    simp only [removeFileEverywhere, List.getElem?_map]
    rcases reg[i]? with _ | p
    · rfl
    · by_cases hf : f ∈ p.2.datasheets <;> simp [hf]
  · intro i
    simp only [removeFileEverywhere, List.getElem?_map]
    rcases reg[i]? with _ | p
    · rfl
    · by_cases hf : f ∈ p.2.datasheets <;> simp [hf]
  · intro i p hp hf
    simp only [removeFileEverywhere, List.getElem?_map, hp]
    simp [hf]

theorem remove_file_everywhere_witness :
    (∀ p ∈ ([("T", ⟨["n"], ["f", "g"]⟩), ("U", ⟨[], ["h"]⟩)] : Registry),
        p.2.datasheets.count "f" ≤ 1) ∧
    (∀ p ∈ removeFileEverywhere
        [("T", ⟨["n"], ["f", "g"]⟩), ("U", ⟨[], ["h"]⟩)] "f",
        "f" ∉ p.2.datasheets) :=
  ⟨by decide,
    (remove_file_everywhere_spec
      [("T", ⟨["n"], ["f", "g"]⟩), ("U", ⟨[], ["h"]⟩)] "f" (by decide)).1⟩

theorem updateTag_forall {P : String × TagEntry → Prop} (tag : String)
    (g : TagEntry → TagEntry) (reg : Registry)
    (h : ∀ p ∈ reg, P p) (hg : ∀ t e, P (t, e) → P (t, g e)) :
    ∀ p ∈ updateTag tag g reg, P p := by
  induction reg with
  | nil => simp [updateTag]
  | cons q rest ih =>
    obtain ⟨t, e⟩ := q
    simp only [updateTag]
    split
    · intro p hp
      rcases List.mem_cons.mp hp with h1 | h2
      · subst h1; exact hg t e (h (t, e) (List.mem_cons_self _ _))
      · exact h p (List.mem_cons_of_mem _ h2)
    · intro p hp
      rcases List.mem_cons.mp hp with h1 | h2
      · subst h1; exact h (t, e) (List.mem_cons_self _ _)
      · exact ih (fun p hp => h p (List.mem_cons_of_mem _ hp)) p h2

theorem updateTag_lookup_isSome (tg tag : String) (g : TagEntry → TagEntry)
    (reg : Registry) (h : (reg.lookup tg).isSome) :
    ((updateTag tag g reg).lookup tg).isSome := by
  induction reg with
  | nil => simp [List.lookup] at h
  | cons q rest ih =>
    obtain ⟨t, e⟩ := q
    simp only [updateTag]
    split
    · simp only [List.lookup] at h ⊢
      rcases hbe : (tg == t) with _ | _
      · rw [hbe] at h
        exact h
      · rfl
    · simp only [List.lookup] at h ⊢
      rcases hbe : (tg == t) with _ | _
      · rw [hbe] at h
        exact ih h
      · rfl

theorem lookup_append_or (l1 l2 : Registry) (a : String) :
    (l1 ++ l2).lookup a = (l1.lookup a).or (l2.lookup a) := by
  induction l1 with
  | nil => simp [List.lookup]
  | cons p l1 ih =>
    obtain ⟨t, e⟩ := p
    simp only [List.cons_append, List.lookup]
    rcases hbe : (a == t) with _ | _ <;> simp [hbe, ih]

theorem ensureEntry_nodup (tag : String) (reg : Registry)
    (h : ∀ p ∈ reg, p.2.nodes.Nodup ∧ p.2.datasheets.Nodup) :
    ∀ p ∈ ensureEntry tag reg, p.2.nodes.Nodup ∧ p.2.datasheets.Nodup := by
  unfold ensureEntry
  split
  · exact h
  · intro p hp
    rcases List.mem_append.mp hp with hl | hr
    · exact h p hl
    · simp only [List.mem_singleton] at hr
      subst hr
      exact ⟨List.nodup_nil, List.nodup_nil⟩

theorem addNodeIfGiven_nodup (node tag : String) (reg : Registry)
    (h : ∀ p ∈ reg, p.2.nodes.Nodup ∧ p.2.datasheets.Nodup) :
    ∀ p ∈ addNodeIfGiven node tag reg,
      p.2.nodes.Nodup ∧ p.2.datasheets.Nodup := by
  unfold addNodeIfGiven
  split
  · refine updateTag_forall tag _ _ h ?_
    intro t e he
    by_cases hn : node ∈ e.nodes
    · simpa [hn] using he
    · simp only [if_neg hn]
      exact ⟨by simp [List.nodup_append, he.1, hn], he.2⟩
  · exact h

theorem addDatasheetIfGiven_nodup (ds tag : String) (reg : Registry)
    (h : ∀ p ∈ reg, p.2.nodes.Nodup ∧ p.2.datasheets.Nodup) :
    ∀ p ∈ addDatasheetIfGiven ds tag reg,
      p.2.nodes.Nodup ∧ p.2.datasheets.Nodup := by
  unfold addDatasheetIfGiven
  split
  · refine updateTag_forall tag _ _ h ?_
    intro t e he
    by_cases hd : ds ∈ e.datasheets
    · simpa [hd] using he
    · simp only [if_neg hd]
      exact ⟨he.1, by simp [List.nodup_append, he.2, hd]⟩
  · exact h

theorem nodupOk_create_step (reg : Registry) (tag node ds : String)
    (h : ∀ p ∈ reg, p.2.nodes.Nodup ∧ p.2.datasheets.Nodup) :
    ∀ p ∈ create_or_update reg tag node ds,
      p.2.nodes.Nodup ∧ p.2.datasheets.Nodup := by
  unfold create_or_update
  split
  · exact h
  · exact addDatasheetIfGiven_nodup ds tag _
      (addNodeIfGiven_nodup node tag _ (ensureEntry_nodup tag reg h))

/-- **C5**: starting from a registry whose node and datasheet lists are
duplicate-free, `create_or_update` preserves that invariant — one step and
any `foldl` sequence of steps keep every tag's node list and datasheet
list duplicate-free — and a non-empty tag always has an entry
afterwards. -/
theorem create_or_update_no_duplicates (reg : Registry)
    (ops : List (String × String × String))
    (h : ∀ p ∈ reg, p.2.nodes.Nodup ∧ p.2.datasheets.Nodup) :
    (∀ tag node ds, ∀ p ∈ create_or_update reg tag node ds,
        p.2.nodes.Nodup ∧ p.2.datasheets.Nodup) ∧
    (∀ p ∈ ops.foldl (fun r o => create_or_update r o.1 o.2.1 o.2.2) reg,
        p.2.nodes.Nodup ∧ p.2.datasheets.Nodup) ∧
    (∀ tag node ds, tag ≠ "" →
        ((create_or_update reg tag node ds).lookup tag).isSome) := by
  refine ⟨fun tag node ds => nodupOk_create_step reg tag node ds h, ?_, ?_⟩
  · induction ops generalizing reg with
    | nil => exact h
    | cons o ops ih =>
      exact ih _ (nodupOk_create_step reg o.1 o.2.1 o.2.2 h)
  · intro tag node ds htag
    unfold create_or_update
    rw [if_neg htag]
    have h1 : ((ensureEntry tag reg).lookup tag).isSome := by
      unfold ensureEntry
      split
      · assumption
      · rw [lookup_append_or]
        rcases hb : reg.lookup tag with _ | e <;> simp [hb, List.lookup]
    have h2 : ((addNodeIfGiven node tag (ensureEntry tag reg)).lookup tag).isSome := by
      unfold addNodeIfGiven
      split
      · exact updateTag_lookup_isSome tag tag _ _ h1
      · exact h1
    unfold addDatasheetIfGiven
    split
    · exact updateTag_lookup_isSome tag tag _ _ h2
    · exact h2

theorem create_or_update_no_duplicates_witness :
    (∀ p ∈ ([("T", ⟨["n1"], ["f1"]⟩)] : Registry),
        p.2.nodes.Nodup ∧ p.2.datasheets.Nodup) ∧
    (∀ p ∈ [("A", "x", "y"), ("A", "x", "y"), ("B", "", "")].foldl
        (fun r (o : String × String × String) =>
          create_or_update r o.1 o.2.1 o.2.2)
        ([("T", ⟨["n1"], ["f1"]⟩)] : Registry),
        p.2.nodes.Nodup ∧ p.2.datasheets.Nodup) :=
  ⟨by decide,
    (create_or_update_no_duplicates [("T", ⟨["n1"], ["f1"]⟩)]
      [("A", "x", "y"), ("A", "x", "y"), ("B", "", "")] (by decide)).2.1⟩

/-- **C9**: when a (non-empty) tag is selected in the datasheet editor, a
tag with exactly one associated node makes that node the active node, and
a tag with two or more associated nodes clears the active node; the active
node is an `Option`, hence always at most one identifier. -/
theorem tag_selection_active_node (reg : Registry) (tagName : String)
    (current : Option String) (h : tagName ≠ "") :
    (∀ n, tagNodes reg tagName = [n] →
        onTagSelectedActiveNode reg tagName current = some n) ∧
    (∀ n1 n2 rest, tagNodes reg tagName = n1 :: n2 :: rest →
        onTagSelectedActiveNode reg tagName current = none) := by
  constructor
  · intro n hn
    simp [onTagSelectedActiveNode, h, hn]
  · intro n1 n2 rest hn
    simp [onTagSelectedActiveNode, h, hn]

theorem tag_selection_active_node_witness :
    ("P" : String) ≠ "" ∧
    onTagSelectedActiveNode [("P", ⟨["Pump_12"], []⟩)] "P" none
      = some "Pump_12" :=
  ⟨by decide,
    (tag_selection_active_node [("P", ⟨["Pump_12"], []⟩)] "P" none
      (by decide)).1 "Pump_12" (by decide)⟩

theorem insertBucket_found (cs : List Tree) (label tag : String) (fresh : Nat)
    (c : Tree) (h : cs.find? (fun c => c.item.tags.contains tag) = some c) :
    insertBucket cs label tag fresh = (cs, fresh, c.iid) := by
  unfold insertBucket
  rw [h]

theorem insertBucket_notFound (cs : List Tree) (label tag : String) (fresh : Nat)
    (h : cs.find? (fun c => c.item.tags.contains tag) = none) :
    insertBucket cs label tag fresh
      = (cs ++ [.node fresh ⟨label, [tag, "bucket_bold"], true⟩ []], fresh + 1, fresh) := by
  unfold insertBucket
  rw [h]

/-- **C3**: `_insert_bucket` is idempotent: calling it twice with the same
owner child list and bucket tag returns the same bucket iid both times and
the second call changes nothing; moreover, if the owner had at most one
bucket of that tag, it still has at most one afterwards — never two. -/
theorem insert_bucket_idempotent (cs : List Tree) (label tag : String)
    (fresh : Nat) :
    (insertBucket (insertBucket cs label tag fresh).1 label tag
        (insertBucket cs label tag fresh).2.1).1
      = (insertBucket cs label tag fresh).1 ∧
    (insertBucket (insertBucket cs label tag fresh).1 label tag
        (insertBucket cs label tag fresh).2.1).2.1
      = (insertBucket cs label tag fresh).2.1 ∧
    (insertBucket (insertBucket cs label tag fresh).1 label tag
        (insertBucket cs label tag fresh).2.1).2.2
      = (insertBucket cs label tag fresh).2.2 ∧
    (List.countP (fun c => c.item.tags.contains tag) cs ≤ 1 →
      List.countP (fun c => c.item.tags.contains tag)
        (insertBucket cs label tag fresh).1 ≤ 1) := by
  rcases hf : cs.find? (fun c => c.item.tags.contains tag) with _ | c
  · have hnew : (fun c => c.item.tags.contains tag)
        (Tree.node fresh ⟨label, [tag, "bucket_bold"], true⟩ []) = true := by
      simp [Tree.item]
    have h1 := insertBucket_notFound cs label tag fresh hf
    have hf2 : ((cs ++ [Tree.node fresh ⟨label, [tag, "bucket_bold"], true⟩ []]).find?
        (fun c => c.item.tags.contains tag))
        = some (Tree.node fresh ⟨label, [tag, "bucket_bold"], true⟩ []) := by
      rw [List.find?_append, hf]
      simp [List.find?, Tree.item]
    have h2 := insertBucket_found _ label tag (fresh + 1) _ hf2
    rw [h1]
    simp only []
    rw [h2]
    refine ⟨rfl, rfl, rfl, ?_⟩
    intro _
    have h0 : List.countP (fun c => c.item.tags.contains tag) cs = 0 :=
      List.countP_eq_zero.mpr (by
        intro a ha
        exact (List.find?_eq_none.mp hf) a ha)
    rw [List.countP_append, h0, List.countP_cons]
    simp [Tree.item]
  · have h1 := insertBucket_found cs label tag fresh c hf
    rw [h1]
    simp only []
    rw [insertBucket_found cs label tag fresh c hf]
    refine ⟨rfl, rfl, rfl, fun h => h⟩

theorem insert_bucket_idempotent_witness :
    (insertBucket (insertBucket [] "Units" "bucket_units" 7).1 "Units"
        "bucket_units" (insertBucket [] "Units" "bucket_units" 7).2.1).2.2
      = (insertBucket [] "Units" "bucket_units" 7).2.2 ∧
    List.countP (fun c => c.item.tags.contains "bucket_units")
      (insertBucket [] "Units" "bucket_units" 7).1 ≤ 1 :=
  ⟨(insert_bucket_idempotent [] "Units" "bucket_units" 7).2.2.1,
   (insert_bucket_idempotent [] "Units" "bucket_units" 7).2.2.2 (by decide)⟩

/-- **C2**: asking to insert a child whose type is not in the allowed-
children set of the parent's type is rejected and adds no node — the tree
state is returned unchanged; in particular, under a parent of type
`asset_node` (whose allowed-children set is empty) every insertion request
is rejected, so an asset never acquires a child through the insert
operation. -/
theorem disallowed_child_rejected (root : Tree) (fresh parentIid : Nat)
    (childTag name : String) :
    (childTag ∉ allowedChildren (typeAt root parentIid) →
      insertChild root fresh parentIid childTag name = ((root, fresh), false)) ∧
    (typeAt root parentIid = "asset_node" →
      insertChild root fresh parentIid childTag name = ((root, fresh), false)) := by
  constructor
  · intro hmem
    unfold insertChild
    rw [if_neg hmem]
  · intro hasset
    unfold insertChild
    rw [hasset, if_neg (by simp [allowedChildren])]

theorem disallowed_child_rejected_witness :
    typeAt (Tree.node 0 ⟨"A1", ["asset_node"], true⟩ []) 0 = "asset_node" ∧
    insertChild (Tree.node 0 ⟨"A1", ["asset_node"], true⟩ []) 5 0 "unit_node" "U1"
      = ((Tree.node 0 ⟨"A1", ["asset_node"], true⟩ [], 5), false) := by
  have h : typeAt (Tree.node 0 ⟨"A1", ["asset_node"], true⟩ []) 0 = "asset_node" := by
    simp [typeAt, Tree.find, Tree.item]
  exact ⟨h, (disallowed_child_rejected _ 5 0 "unit_node" "U1").2 h⟩

theorem pySplit_ne_nil (sep : Char) (cs : List Char) : pySplit sep cs ≠ [] := by
  cases cs with
  | nil => simp [pySplit]
  | cons c cs =>
    simp only [pySplit]
    split <;> simp

theorem pySplit_no_sep (sep : Char) (cs : List Char) (h : sep ∉ cs) :
    pySplit sep cs = [cs] := by
  induction cs with
  | nil => rfl
  | cons c cs ih =>
    have hc : c ≠ sep := fun hh => h (hh ▸ List.mem_cons_self c cs)
    have hcs : sep ∉ cs := fun hh => h (List.mem_cons_of_mem c hh)
    simp only [pySplit, ih hcs]
    rw [if_neg hc]
    rfl

theorem pySplit_len2 (sep : Char) (cs : List Char) (h : sep ∈ cs) :
    2 ≤ (pySplit sep cs).length := by
  induction cs with
  | nil => simp at h
  | cons c cs ih =>
    simp only [pySplit]
    by_cases hc : c = sep
    · rw [if_pos hc]
      simp only [List.length_cons]
      have h1 : 0 < (pySplit sep cs).length :=
        List.length_pos.mpr (pySplit_ne_nil sep cs)
      omega
    · rw [if_neg hc]
      have hm : sep ∈ cs := by
        rcases List.mem_cons.mp h with h1 | h2
        · exact absurd h1.symm hc
        · exact h2
      have h2 := ih hm
      have h3 : (pySplit sep cs).tail.length = (pySplit sep cs).length - 1 :=
        List.length_tail _
      simp only [List.length_cons]
      omega

theorem getLastD_indep {α : Type} (l : List α) (h : l ≠ []) (d1 d2 : α) :
    l.getLastD d1 = l.getLastD d2 := by
  cases l with
  | nil => exact absurd rfl h
  | cons a l => rw [List.getLastD_cons, List.getLastD_cons]

theorem afterLast_no_sep (sep : Char) (cs : List Char) (h : sep ∉ cs) :
    afterLast sep cs = cs := by
  cases cs with
  | nil => rfl
  | cons c cs =>
    have hc : c ≠ sep := fun hh => h (hh ▸ List.mem_cons_self c cs)
    have hcs : sep ∉ cs := fun hh => h (List.mem_cons_of_mem c hh)
    simp [afterLast, hcs, hc]

theorem getLastD_pySplit (sep : Char) (cs : List Char) :
    (pySplit sep cs).getLastD [] = afterLast sep cs := by
  induction cs with
  | nil => rfl
  | cons c cs ih =>
    simp only [pySplit]
    by_cases hc : c = sep
    · rw [if_pos hc]
      rw [List.getLastD_cons]
      subst hc
      by_cases hmc : c ∈ cs
      · simp only [afterLast, if_pos hmc]
        exact ih
      · simp only [afterLast, if_neg hmc, if_pos rfl]
        rw [ih]
        exact afterLast_no_sep c cs hmc
    · rw [if_neg hc]
      rcases hp : pySplit sep cs with _ | ⟨p, tl⟩
      · exact absurd hp (pySplit_ne_nil sep cs)
      · rcases tl with _ | ⟨q, r⟩
        · have hns : sep ∉ cs := by
            intro hmem
            have h2 := pySplit_len2 sep cs hmem
            rw [hp] at h2
            simp at h2
          have hpcs : p = cs := by
            have h3 := pySplit_no_sep sep cs hns
            rw [hp] at h3
            simpa using h3
          subst hpcs
          simp only [List.headD, List.tail, List.getLastD_cons]
          simp [afterLast, hns, hc]
        · have hm : sep ∈ cs := by
            by_contra hns
            have h3 := pySplit_no_sep sep cs hns
            rw [hp] at h3
            simp at h3
          simp only [List.headD, List.tail, List.getLastD_cons]
          have h6 : (pySplit sep cs).getLastD [] = r.getLastD q := by
            rw [hp]
            simp only [List.getLastD_cons]
          rw [← h6, ih]
          simp [afterLast, hm]

theorem takeWhile_stop {α : Type} (p : α → Bool) (l1 l2 : List α) (x : α)
    (hx : x ∈ l1) (hpx : p x = false) :
    (l1 ++ l2).takeWhile p = l1.takeWhile p := by
  induction l1 with
  | nil => simp at hx
  | cons a l1 ih =>
    by_cases hpa : p a = true
    · have hx2 : x ∈ l1 := by
        rcases List.mem_cons.mp hx with h1 | h2
        · subst h1
          rw [hpa] at hpx
          simp at hpx
        · exact h2
      simp only [List.cons_append, List.takeWhile_cons, hpa]
      simp [ih hx2]
    · simp only [List.cons_append, List.takeWhile_cons]
      simp [hpa]

theorem afterLast_eq_takeWhile (sep : Char) (cs : List Char) :
    afterLast sep cs = ((cs.reverse.takeWhile (· != sep)).reverse) := by
  induction cs with
  | nil => rfl
  | cons c cs ih =>
    simp only [afterLast, List.reverse_cons]
    by_cases hm : sep ∈ cs
    · rw [if_pos hm, ih]
      congr 1
      exact (takeWhile_stop _ _ [c] sep (List.mem_reverse.mpr hm) (by simp)).symm
    · have hall : ∀ x ∈ cs.reverse, (x != sep) = true := by
        intro x hxm
        have hx : x ∈ cs := List.mem_reverse.mp hxm
        have hxs : x ≠ sep := fun hh => hm (hh ▸ hx)
        simpa using hxs
      by_cases hc : c = sep
      · rw [if_neg hm, if_pos hc]
        rw [List.takeWhile_append_of_pos hall]
        subst hc
        simp
      · rw [if_neg hm, if_neg hc]
        rw [List.takeWhile_append_of_pos hall]
        simp [hc]

theorem localName_eq_spec (s : String) : localName s = specLocalName s := by
  unfold localName specLocalName
  rw [getLastD_pySplit, getLastD_pySplit]
  rw [afterLast_eq_takeWhile, afterLast_eq_takeWhile]
  rw [List.reverse_reverse, List.takeWhile_takeWhile]
  have hpred : (fun a : Char => decide ((a != '/') = true ∧ (a != '#') = true))
      = (fun c : Char => c != '#' && c != '/') := by
    funext a
    by_cases h1 : a = '#' <;> by_cases h2 : a = '/' <;> simp [h1, h2]
  rw [hpred]

theorem listLe_total (a b : List Char) : listLe a b = true ∨ listLe b a = true := by
  induction a generalizing b with
  | nil => exact Or.inl rfl
  | cons x xs ih =>
    cases b with
    | nil => exact Or.inr rfl
    | cons y ys =>
      simp only [listLe]
      rcases Nat.lt_trichotomy x.toNat y.toNat with h | h | h
      · exact Or.inl (by rw [if_pos h])
      · rw [if_neg (by omega), if_neg (by omega), if_neg (by omega), if_neg (by omega)]
        exact ih ys
      · exact Or.inr (by rw [if_pos h])

theorem listLe_trans (a b c : List Char) (h1 : listLe a b = true)
    (h2 : listLe b c = true) : listLe a c = true := by
  induction a generalizing b c with
  | nil => rfl
  | cons x xs ih =>
    cases b with
    | nil => simp [listLe] at h1
    | cons y ys =>
      cases c with
      | nil => simp [listLe] at h2
      | cons z zs =>
        simp only [listLe] at h1 h2 ⊢
        by_cases hxy : x.toNat < y.toNat
        · by_cases hyz : y.toNat < z.toNat
          · rw [if_pos (by omega)]
          · by_cases hzy : z.toNat < y.toNat
            · rw [if_neg hyz, if_pos hzy] at h2
              simp at h2
            · rw [if_pos (by omega)]
        · by_cases hyx : y.toNat < x.toNat
          · rw [if_neg hxy, if_pos hyx] at h1
            simp at h1
          · by_cases hyz : y.toNat < z.toNat
            · rw [if_pos (by omega)]
            · by_cases hzy : z.toNat < y.toNat
              · rw [if_neg hyz, if_pos hzy] at h2
                simp at h2
              · rw [if_neg hxy, if_neg hyx] at h1
                rw [if_neg hyz, if_neg hzy] at h2
                rw [if_neg (by omega), if_neg (by omega)]
                exact ih ys zs h1 h2

/-- **C6**: the master node list built from the fetched URIs consists of
each URI's local name — provably the substring after the last `#` or `/`,
exactly as the spec words it — deduplicated and sorted ascending in
Python's string order; on the spec's example URIs it is
`["Pump_1", "Pump_2"]`. -/
theorem fetched_node_list_spec (uris : List String) :
    (∀ s, localName s = specLocalName s) ∧
    (afterFetchNodes uris).Sorted (fun a b => strLe a b = true) ∧
    (afterFetchNodes uris).Nodup ∧
    (∀ x, x ∈ afterFetchNodes uris ↔ ∃ u ∈ uris, localName u = x) ∧
    afterFetchNodes ["http://ex.org/pumps#Pump_1", "http://ex.org/pumps#Pump_2"]
      = ["Pump_1", "Pump_2"] := by
  haveI htot : IsTotal String (fun a b => strLe a b = true) :=
    ⟨fun a b => listLe_total a.data b.data⟩
  haveI htrans : IsTrans String (fun a b => strLe a b = true) :=
    ⟨fun a b c => listLe_trans a.data b.data c.data⟩
  refine ⟨localName_eq_spec, ?_, ?_, ?_, by decide⟩
  · exact List.sorted_insertionSort _ _
  · exact (List.perm_insertionSort _ _).nodup_iff.mpr (List.nodup_dedup _)
  · intro x
    rw [afterFetchNodes, pySortedSet, sortStrings,
      (List.perm_insertionSort _ _).mem_iff, List.mem_dedup, List.mem_map]

mutual
theorem serialize_noInlineT : ∀ (t : Tree) (s : SNode),
    serializeTree t = some s → noInlineS s = true
  | .node i it cs, s, h => by
    simp only [serializeTree] at h
    by_cases hin : "inline_info" ∈ it.tags
    · rw [if_pos hin] at h
      exact absurd h (by simp)
    · rw [if_neg hin] at h
      injection h with h
      subst h
      simp only [noInlineS, if_neg hin]
      exact serialize_noInlineL cs

theorem serialize_noInlineL : ∀ (ts : List Tree),
    noInlineSL (serializeForest ts) = true
  | [] => by simp [serializeForest, noInlineSL]
  | t :: ts => by
    simp only [serializeForest]
    rcases hs : serializeTree t with _ | s
    · exact serialize_noInlineL ts
    · simp only [noInlineSL, Bool.and_eq_true]
      exact ⟨serialize_noInlineT t s hs, serialize_noInlineL ts⟩
end

theorem serializeTree_none_iff (t : Tree) :
    serializeTree t = none ↔ absTree t = none := by
  cases t with
  | node i it cs =>
    simp only [serializeTree, absTree]
    by_cases hin : "inline_info" ∈ it.tags <;> simp [hin]

mutual
theorem abs_serialize_T : ∀ (t : Tree) (s : SNode),
    serializeTree t = some s → absTree t = some (absS s)
  | .node i it cs, s, h => by
    simp only [serializeTree] at h
    by_cases hin : "inline_info" ∈ it.tags
    · rw [if_pos hin] at h
      exact absurd h (by simp)
    · rw [if_neg hin] at h
      injection h with h
      subst h
      simp only [absTree, absS, if_neg hin]
      rw [abs_serialize_L cs]

theorem abs_serialize_L : ∀ (ts : List Tree),
    absSL (serializeForest ts) = absForest ts
  | [] => by simp [serializeForest, absSL, absForest]
  | t :: ts => by
    simp only [serializeForest, absForest]
    rcases hs : serializeTree t with _ | s
    · rw [(serializeTree_none_iff t).mp hs]
      exact abs_serialize_L ts
    · rw [abs_serialize_T t s hs]
      simp only [absSL]
      rw [abs_serialize_L ts]
end

mutual
theorem abs_rebuild_T : ∀ (s : SNode) (f : Nat), noInlineS s = true →
    absTree (rebuildTree s f).1 = some (absS s)
  | .mk text tags op children, f, h => by
    simp only [noInlineS] at h
    by_cases hin : "inline_info" ∈ tags
    · rw [if_pos hin] at h
      exact absurd h (by simp)
    · rw [if_neg hin] at h
      simp only [rebuildTree, absTree, absS]
      by_cases hb : tags.any (strStartsWith · "bucket_")
      · rw [if_pos hb]
        cases tags with
        | nil => simp at hb
        | cons a as =>
          have hin2 : "inline_info" ∉ (a :: as) ++ ["bucket_bold"] := by
            simp only [List.mem_append, List.mem_singleton]
            rintro (h1 | h2)
            · exact hin h1
            · exact absurd h2 (by decide)
          rw [if_neg hin2, abs_rebuild_L children (f + 1) h]
          simp
      · rw [if_neg hb, if_neg hin, abs_rebuild_L children (f + 1) h]

theorem abs_rebuild_L : ∀ (ss : List SNode) (f : Nat), noInlineSL ss = true →
    absForest (rebuildForest ss f).1 = absSL ss
  | [], f, _ => by simp [rebuildForest, absForest, absSL]
  | s :: ss, f, h => by
    simp only [noInlineSL, Bool.and_eq_true] at h
    obtain ⟨h1, h2⟩ := h
    simp only [rebuildForest, absForest]
    rw [abs_rebuild_T s f h1]
    simp only [absSL]
    rw [abs_rebuild_L ss (rebuildTree s f).2 h2]
end

mutual
theorem noInline_rebuild_T : ∀ (s : SNode) (f : Nat), noInlineS s = true →
    noInlineT (rebuildTree s f).1 = true
  | .mk text tags op children, f, h => by
    simp only [noInlineS] at h
    by_cases hin : "inline_info" ∈ tags
    · rw [if_pos hin] at h
      exact absurd h (by simp)
    · rw [if_neg hin] at h
      simp only [rebuildTree, noInlineT]
      by_cases hb : tags.any (strStartsWith · "bucket_")
      · rw [if_pos hb]
        have hin2 : "inline_info" ∉ tags ++ ["bucket_bold"] := by
          simp only [List.mem_append, List.mem_singleton]
          rintro (h1 | h2)
          · exact hin h1
          · exact absurd h2 (by decide)
        rw [if_neg hin2]
        exact noInline_rebuild_L children (f + 1) h
      · rw [if_neg hb, if_neg hin]
        exact noInline_rebuild_L children (f + 1) h

theorem noInline_rebuild_L : ∀ (ss : List SNode) (f : Nat),
    noInlineSL ss = true → noInlineL (rebuildForest ss f).1 = true
  | [], f, _ => by simp [rebuildForest, noInlineL]
  | s :: ss, f, h => by
    simp only [noInlineSL, Bool.and_eq_true] at h
    obtain ⟨h1, h2⟩ := h
    simp only [rebuildForest, noInlineL, Bool.and_eq_true]
    exact ⟨noInline_rebuild_T s f h1, noInline_rebuild_L ss (rebuildTree s f).2 h2⟩
end

/-- **C10**: rebuilding the tree from its serialized document preserves,
for every non-inline-info node, the display text, the open flag, the
primary (first) type tag and the ordered list of non-inline-info children
(the `absTree` view), and the rebuilt tree contains no `inline_info`
node. -/
theorem serialize_rebuild_roundtrip (t : Tree) (s : SNode) (fresh : Nat)
    (h : serializeTree t = some s) :
    absTree ((rebuildTree s fresh).1) = absTree t ∧
    noInlineT ((rebuildTree s fresh).1) = true := by
  have hn : noInlineS s = true := serialize_noInlineT t s h
  constructor
  · rw [abs_rebuild_T s fresh hn, abs_serialize_T t s h]
  · exact noInline_rebuild_T s fresh hn

theorem serialize_rebuild_roundtrip_witness :
    serializeTree sampleTree = some sampleDoc ∧
    absTree ((rebuildTree sampleDoc 10).1) = absTree sampleTree ∧
    noInlineT ((rebuildTree sampleDoc 10).1) = true := by
  have h : serializeTree sampleTree = some sampleDoc := by
    simp [sampleTree, sampleDoc, serializeTree, serializeForest, Tree.item]
  exact ⟨h, (serialize_rebuild_roundtrip sampleTree sampleDoc 10 h).1,
    (serialize_rebuild_roundtrip sampleTree sampleDoc 10 h).2⟩

end LDT
